import Mathlib

/-!
Verification of the persistence and replication subsystem of the
investment-mcp repository: the local atomic-write file store
(`agent/backends/local_storage.py`), the primary/fallback hybrid
orchestrator (`agent/backends/hybrid_storage.py`), the content-hash
change detector (`agent/transaction_storage.py`) and the facade
(`agent/storage.py`).

The Python code is embedded shallowly: file contents become an inductive
datatype, stateful methods become explicit state-passing functions, and
the SHA-256 digest used by the change detector is implemented over `Nat`
so that concrete hashes evaluate inside the kernel.
-/

set_option maxRecDepth 40000

/-! ## SHA-256 over byte lists (model of Python hashlib.sha256) -/

/-- Truncate to a 32-bit word. -/
def w32 (n : Nat) : Nat := n % 4294967296

/-- 32-bit rotate right. -/
def rotr (n x : Nat) : Nat := w32 ((x >>> n) ||| (x <<< (32 - n)))

def sSig0 (x : Nat) : Nat := (rotr 7 x) ^^^ (rotr 18 x) ^^^ (x >>> 3)
def sSig1 (x : Nat) : Nat := (rotr 17 x) ^^^ (rotr 19 x) ^^^ (x >>> 10)
def bSig0 (x : Nat) : Nat := (rotr 2 x) ^^^ (rotr 13 x) ^^^ (rotr 22 x)
def bSig1 (x : Nat) : Nat := (rotr 6 x) ^^^ (rotr 11 x) ^^^ (rotr 25 x)
def chW (x y z : Nat) : Nat := (x &&& y) ^^^ ((x ^^^ 4294967295) &&& z)
def majW (x y z : Nat) : Nat := (x &&& y) ^^^ (x &&& z) ^^^ (y &&& z)

/-- The 64 SHA-256 round constants (FIPS 180-4), in decimal. -/
def kConst : List Nat :=
  [1116352408, 1899447441, 3049323471, 3921009573, 961987163,
   1508970993, 2453635748, 2870763221, 3624381080, 310598401,
   607225278, 1426881987, 1925078388, 2162078206, 2614888103,
   3248222580, 3835390401, 4022224774, 264347078, 604807628,
   770255983, 1249150122, 1555081692, 1996064986, 2554220882,
   2821834349, 2952996808, 3210313671, 3336571891, 3584528711,
   113926993, 338241895, 666307205, 773529912, 1294757372,
   1396182291, 1695183700, 1986661051, 2177026350, 2456956037,
   2730485921, 2820302411, 3259730800, 3345764771, 3516065817,
   3600352804, 4094571909, 275423344, 430227734, 506948616,
   659060556, 883997877, 958139571, 1322822218, 1537002063,
   1747873779, 1955562222, 2024104815, 2227730452, 2361852424,
   2428436474, 2756734187, 3204031479, 3329325298]

/-- `n` bytes of `v`, big-endian. -/
def beBytes : Nat → Nat → List Nat
  | 0, _ => []
  | n+1, v => beBytes n (v / 256) ++ [v % 256]

/-- SHA-256 message padding: append 0x80, zero-pad to 56 mod 64, then the
64-bit big-endian bit length. -/
def sha256pad (msg : List Nat) : List Nat :=
  let len := msg.length
  let padZeros := (64 - ((len + 9) % 64)) % 64
  msg ++ [128] ++ List.replicate padZeros 0 ++ beBytes 8 (8 * len)

/-- Group bytes into big-endian 32-bit words. -/
def bytesToWords : List Nat → List Nat
  | a :: b :: c :: d :: rest => (((a * 256 + b) * 256 + c) * 256 + d) :: bytesToWords rest
  | _ => []

/-- Extend the 16 block words to the 64-word message schedule
(first argument is fuel, always called with 48). -/
def extendW : Nat → List Nat → List Nat
  | 0, ws => ws
  | n+1, ws =>
    let i := ws.length
    extendW n
      (ws ++ [w32 (sSig1 (ws.getD (i-2) 0) + ws.getD (i-7) 0 +
                   sSig0 (ws.getD (i-15) 0) + ws.getD (i-16) 0)])

/-- The eight 32-bit working variables of SHA-256. -/
structure Hash8 where
  a : Nat
  b : Nat
  c : Nat
  d : Nat
  e : Nat
  f : Nat
  g : Nat
  h : Nat
deriving DecidableEq

/-- SHA-256 initial hash value (FIPS 180-4), in decimal. -/
def initH : Hash8 :=
  ⟨1779033703, 3144134277, 1013904242, 2773480762,
   1359893119, 2600822924, 528734635, 1541459225⟩

/-- One SHA-256 compression round; `wk` pairs the schedule word with the
round constant. -/
def roundStep (s : Hash8) (wk : Nat × Nat) : Hash8 :=
  let t1 := w32 (s.h + bSig1 s.e + chW s.e s.f s.g + wk.2 + wk.1)
  let t2 := w32 (bSig0 s.a + majW s.a s.b s.c)
  ⟨w32 (t1 + t2), s.a, s.b, s.c, w32 (s.d + t1), s.e, s.f, s.g⟩

/-- Compress one 64-byte block into the running hash state. -/
def processBlock (h0 : Hash8) (block : List Nat) : Hash8 :=
  let ws := extendW 48 (bytesToWords block)
  let s := (ws.zip kConst).foldl roundStep h0
  ⟨w32 (h0.a + s.a), w32 (h0.b + s.b), w32 (h0.c + s.c), w32 (h0.d + s.d),
   w32 (h0.e + s.e), w32 (h0.f + s.f), w32 (h0.g + s.g), w32 (h0.h + s.h)⟩

/-- Split into 64-byte chunks (first argument is fuel ≥ the list length). -/
def chunks64 : Nat → List Nat → List (List Nat)
  | 0, _ => []
  | _, [] => []
  | fuel+1, l => l.take 64 :: chunks64 fuel (l.drop 64)

/-- Lower-case hex digit. -/
def hexDigit (n : Nat) : Char := if n < 10 then Char.ofNat (48 + n) else Char.ofNat (87 + n)

/-- Eight hex digits of a 32-bit word, big-endian. -/
def wordHex (x : Nat) : List Char :=
  [hexDigit ((x >>> 28) &&& 15), hexDigit ((x >>> 24) &&& 15), hexDigit ((x >>> 20) &&& 15),
   hexDigit ((x >>> 16) &&& 15), hexDigit ((x >>> 12) &&& 15), hexDigit ((x >>> 8) &&& 15),
   hexDigit ((x >>> 4) &&& 15), hexDigit (x &&& 15)]

/-- SHA-256 hex digest of a byte list (model of
`hashlib.sha256(b).hexdigest()`). -/
def sha256hex (msg : List Nat) : String :=
  let padded := sha256pad msg
  let hs := (chunks64 padded.length padded).foldl processBlock initH
  String.mk (wordHex hs.a ++ wordHex hs.b ++ wordHex hs.c ++ wordHex hs.d ++
             wordHex hs.e ++ wordHex hs.f ++ wordHex hs.g ++ wordHex hs.h)

/-- UTF-8 encoding of one character. -/
def utf8Bytes (c : Char) : List Nat :=
  let n := c.toNat
  if n < 128 then [n]
  else if n < 2048 then [192 + (n >>> 6), 128 + (n &&& 63)]
  else if n < 65536 then [224 + (n >>> 12), 128 + ((n >>> 6) &&& 63), 128 + (n &&& 63)]
  else [240 + (n >>> 18), 128 + ((n >>> 12) &&& 63), 128 + ((n >>> 6) &&& 63), 128 + (n &&& 63)]

/-- UTF-8 bytes of a string (model of `str.encode` in Python). -/
def strBytes (s : String) : List Nat := (s.data.map utf8Bytes).flatten

/-! ## Python numbers, string order and JSON serialization -/

/-- Model of a Python float value as an exact rational `num / den`
(`den` positive). Every IEEE double is such a rational. -/
structure PyNum where
  num : Int
  den : Nat
deriving DecidableEq

/-- Model of Python `round(x, 4)` (round half to even), returning the
result scaled by 10^4, i.e. an integer `k` denoting `k / 10^4`. -/
def roundHalfEven4 (x : PyNum) : Int :=
  let n : Int := x.num * 10000
  let d : Int := (x.den : Int)
  let q : Int := Int.fdiv n d
  let r : Int := n - q * d
  if 2 * r < d then q
  else if 2 * r > d then q + 1
  else if q % 2 = 0 then q else q + 1

def natDigitsAux : Nat → Nat → List Char
  | 0, _ => []
  | fuel+1, n =>
    if n < 10 then [Char.ofNat (48 + n)]
    else natDigitsAux fuel (n / 10) ++ [Char.ofNat (48 + n % 10)]

/-- Decimal digits of a natural number. -/
def natDecimal (n : Nat) : String := String.mk (natDigitsAux (n+1) n)

def dropTrailingZeros (l : List Char) : List Char :=
  (l.reverse.dropWhile (fun c => c == '0')).reverse

/-- Model of CPython `repr(float)` (as used by `json.dumps`) for a value
`k / 10^4` as produced by `round(_, 4)`: shortest decimal form, with at
least one fractional digit. -/
def renderScaled4 (k : Int) : String :=
  let sign := if k < 0 then "-" else ""
  let m := k.natAbs
  let ip := m / 10000
  let fp := m % 10000
  let fracDigits := dropTrailingZeros
    [Char.ofNat (48 + fp / 1000), Char.ofNat (48 + (fp / 100) % 10),
     Char.ofNat (48 + (fp / 10) % 10), Char.ofNat (48 + fp % 10)]
  let frac := if fracDigits.isEmpty then "0" else String.mk fracDigits
  sign ++ natDecimal ip ++ "." ++ frac

/-- Code-point lexicographic order on character lists (model of Python
string comparison). -/
def charsLt : List Char → List Char → Bool
  | [], [] => false
  | [], _ :: _ => true
  | _ :: _, [] => false
  | a :: as, b :: bs =>
    if a.toNat < b.toNat then true
    else if b.toNat < a.toNat then false
    else charsLt as bs

def pyStrLt (s t : String) : Bool := charsLt s.data t.data

/-- Python string slicing `s[:n]` (by code point). -/
def pySlice (n : Nat) (s : String) : String := String.mk (s.data.take n)

/-- JSON escape of one character (`json.dumps` with `ensure_ascii=False`). -/
def jsonEscapeChar (c : Char) : List Char :=
  if c == '"' then ['\\', '"']
  else if c == '\\' then ['\\', '\\']
  else if c == Char.ofNat 10 then ['\\', 'n']
  else if c == Char.ofNat 13 then ['\\', 'r']
  else if c == Char.ofNat 9 then ['\\', 't']
  else if c == Char.ofNat 8 then ['\\', 'b']
  else if c == Char.ofNat 12 then ['\\', 'f']
  else if c.toNat < 32 then
    ['\\', 'u', '0', '0', hexDigit (c.toNat / 16), hexDigit (c.toNat % 16)]
  else [c]

/-- A JSON string literal with quotes and escapes. -/
def jsonString (s : String) : String :=
  String.mk ('"' :: (s.data.map jsonEscapeChar).flatten ++ ['"'])

def joinComma : List String → String
  | [] => ""
  | [s] => s
  | s :: rest => s ++ ", " ++ joinComma rest

/-! ## Transaction change detector (`agent/transaction_storage.py`) -/

/-- A parsed transaction row. The first six fields are the ones
`_normalize_transaction_for_hashing` reads; `total_eur` and `extra`
model the derived fields of the dict (cached totals and the like),
which normalization ignores. -/
structure Txn where
  date : String
  asset_name : String
  quantity : PyNum
  currency : String
  sell_price_per_unit_eur : Option PyNum
  purchase_price_per_unit_eur : Option PyNum
  total_eur : PyNum
  extra : List (String × String)
deriving DecidableEq

/-- The per-unit price the normalizer selects:
`txn.get("sell_price_per_unit_eur") or txn.get("purchase_price_per_unit_eur", 0.0)`.
A missing or falsy (zero) sell price falls through to the purchase price. -/
def priceFieldEur (t : Txn) : PyNum :=
  match t.sell_price_per_unit_eur with
  | some p => if p.num = 0 then t.purchase_price_per_unit_eur.getD ⟨0, 1⟩ else p
  | none => t.purchase_price_per_unit_eur.getD ⟨0, 1⟩

/-- A normalized transaction: date truncated to 19 characters, rounded
quantity and price (scaled by 10^4). -/
structure NormTxn where
  date : String
  asset_name : String
  quantity : Int
  currency : String
  price_eur : Int
deriving DecidableEq

/-- Model of `_normalize_transaction_for_hashing`. -/
def normalize_transaction_for_hashing (t : Txn) : NormTxn :=
  ⟨pySlice 19 t.date, t.asset_name, roundHalfEven4 t.quantity,
   t.currency, roundHalfEven4 (priceFieldEur t)⟩

/-- The sort key comparison `(date, asset_name) < (date, asset_name)`
used by `normalized.sort(key=...)`. -/
def keyLt (a b : NormTxn) : Bool :=
  pyStrLt a.date b.date || ((a.date == b.date) && pyStrLt a.asset_name b.asset_name)

/-- Stable insertion into a key-sorted list (equal keys keep their
original relative order, as Python list.sort does). -/
def insertByKey (x : NormTxn) : List NormTxn → List NormTxn
  | [] => [x]
  | y :: ys => if keyLt y x then y :: insertByKey x ys else x :: y :: ys

/-- Stable sort by `(date, asset_name)` (model of Python list.sort). -/
def sortByKey : List NormTxn → List NormTxn
  | [] => []
  | x :: xs => insertByKey x (sortByKey xs)

/-- `json.dumps` of one normalized record with `sort_keys=True`:
keys in alphabetical order. -/
def serializeNormTxn (n : NormTxn) : String :=
  "\x7b\"asset_name\": " ++ jsonString n.asset_name ++
  ", \"currency\": " ++ jsonString n.currency ++
  ", \"date\": " ++ jsonString n.date ++
  ", \"price_eur\": " ++ renderScaled4 n.price_eur ++
  ", \"quantity\": " ++ renderScaled4 n.quantity ++ "\x7d"

/-- `json.dumps` of the normalized, sorted record list. -/
def serializeNormList (l : List NormTxn) : String :=
  "[" ++ joinComma (l.map serializeNormTxn) ++ "]"

/-- Model of `compute_transaction_hash`: empty list short-circuits to a
fixed constant; otherwise normalize, stable-sort by `(date, asset_name)`,
serialize and hash. -/
def compute_transaction_hash (transactions : List Txn) : String :=
  if transactions.isEmpty then
    "sha256:e3b0c44298fc1c149afbf4c8996fb92427ae41e4649b934ca495991b7852b855"
  else
    let normalized := transactions.map normalize_transaction_for_hashing
    let sorted := sortByKey normalized
    "sha256:" ++ sha256hex (strBytes (serializeNormList sorted))


/-! ## Local file backend (`agent/backends/local_storage.py`) -/

/-- Content of a JSON history file as the local backend can encounter it.
`corrupt` is unparsable JSON and `nonList` is valid JSON that is not an
array; both carry a `raw` tag identifying the exact bytes, so equality of
`FileContent` values models byte-for-byte equality of files. -/
inductive FileContent (α : Type) where
  | corrupt (raw : Nat) : FileContent α
  | nonList (raw : Nat) : FileContent α
  | blank : FileContent α
  | snaps (history : List α) : FileContent α
deriving DecidableEq

/-- The on-disk state a `LocalFileBackend` instance owns: the canonical
history file, the last-mutation `.bak` copy, and the accumulated
timestamped deletion backups. `none` means the file does not exist.
Snapshots themselves are opaque dictionaries, modelled by `α`. -/
structure LocalState (α : Type) where
  historyFile : Option (FileContent α)
  backupFile : Option (FileContent α)
  tsBackups : List (FileContent α)
deriving DecidableEq

/-- A fresh data directory: no history file, no backups. -/
def LocalFileBackend.emptyState (α : Type) : LocalState α := ⟨none, none, []⟩

/-- Model of `LocalFileBackend.save_snapshot`:
read-and-parse (fail fast on corruption, before any backup), copy the
canonical file to `.bak`, append, then atomically replace the canonical
file. Disk writes themselves never fail in this model. -/
def LocalFileBackend.save_snapshot {α : Type} (st : LocalState α) (s : α) :
    Bool × LocalState α :=
  match st.historyFile with
  | none =>
      (true, { st with historyFile := some (.snaps [s]) })
  | some fc =>
    match fc with
    | .corrupt _ => (false, st)
    | .nonList _ => (false, st)
    | .blank =>
        (true, { st with backupFile := some fc, historyFile := some (.snaps [s]) })
    | .snaps history =>
        (true, { st with backupFile := some fc,
                         historyFile := some (.snaps (history ++ [s])) })

/-- Model of `LocalFileBackend.get_latest_snapshot`. -/
def LocalFileBackend.get_latest_snapshot {α : Type} (st : LocalState α) : Option α :=
  match st.historyFile with
  | some (.snaps history) => history.getLast?
  | _ => none

/-- Model of `LocalFileBackend.get_all_snapshots`: empty list on a
missing, blank, corrupt or non-array file. -/
def LocalFileBackend.get_all_snapshots {α : Type} (st : LocalState α) : List α :=
  match st.historyFile with
  | some (.snaps history) => history
  | _ => []

/-- Model of `LocalFileBackend.delete_snapshot`: load and validate,
reject an out-of-range index without mutation, otherwise take a
timestamped backup, remove the element and atomically rewrite. -/
def LocalFileBackend.delete_snapshot {α : Type} (st : LocalState α) (index : Int) :
    Bool × LocalState α :=
  match st.historyFile with
  | none => (false, st)
  | some fc =>
    match fc with
    | .corrupt _ => (false, st)
    | .nonList _ => (false, st)
    | .blank => (false, st)
    | .snaps history =>
        if index < 0 ∨ (history.length : Int) ≤ index then (false, st)
        else
          (true, { st with tsBackups := st.tsBackups ++ [FileContent.snaps history],
                           historyFile := some (.snaps (history.eraseIdx index.toNat)) })

/-- Model of `LocalFileBackend.is_available`. -/
def LocalFileBackend.is_available {α : Type} (_ : LocalState α) : Bool := true

/-- Iterate `save_snapshot` over a list of snapshots, collecting the
returned booleans in call order. -/
def LocalFileBackend.saveMany {α : Type} (st : LocalState α) (ss : List α) :
    List Bool × LocalState α :=
  match ss with
  | [] => ([], st)
  | s :: rest =>
      let r1 := LocalFileBackend.save_snapshot st s
      let r2 := LocalFileBackend.saveMany r1.2 rest
      (r1.1 :: r2.1, r2.2)

/-! ## Hybrid backend (`agent/backends/hybrid_storage.py`) -/

/-- The snapshot-facing interface a backend offers to the hybrid
orchestrator (`StorageBackend` restricted to what `save_snapshot` and
the reads use), over an explicit backend state `σ`. -/
structure SnapBackend (σ α : Type) where
  is_available : σ → Bool
  save_snapshot : σ → α → Bool × σ
  get_latest_snapshot : σ → Option α
  get_all_snapshots : σ → List α

/-- The state of a `HybridStorageBackend`: the two component backend
states plus the in-memory pending-sync queue. -/
structure HybridState (σp σf α : Type) where
  primary : σp
  fallback : σf
  pending_sync : List α

/-- Model of `HybridStorageBackend._retry_pending_syncs`: with the
primary available, retry each queued snapshot in FIFO order, re-queuing
the failures. -/
def HybridStorageBackend.retry_pending_syncs {σp α : Type} (P : SnapBackend σp α)
    (pst : σp) (pending : List α) : σp × List α :=
  if pending.isEmpty then (pst, pending)
  else if P.is_available pst = false then (pst, pending)
  else
    pending.foldl
      (fun acc s =>
        let r := P.save_snapshot acc.1 s
        if r.1 then (r.2, acc.2) else (r.2, acc.2 ++ [s]))
      (pst, ([] : List α))

/-- Model of `HybridStorageBackend.save_snapshot`: drain the retry
queue, try the primary (queuing the snapshot on unavailability or
failure), always write to the fallback, succeed if either side did. -/
def HybridStorageBackend.save_snapshot {σp σf α : Type}
    (P : SnapBackend σp α) (F : SnapBackend σf α)
    (st : HybridState σp σf α) (s : α) : Bool × HybridState σp σf α :=
  let rp := HybridStorageBackend.retry_pending_syncs P st.primary st.pending_sync
  let afterPrimary :=
    if P.is_available rp.1 then
      let r := P.save_snapshot rp.1 s
      if r.1 then (true, r.2, rp.2) else (false, r.2, rp.2 ++ [s])
    else (false, rp.1, rp.2 ++ [s])
  let rf := F.save_snapshot st.fallback s
  (afterPrimary.1 || rf.1, ⟨afterPrimary.2.1, rf.2, afterPrimary.2.2⟩)

/-- Model of `HybridStorageBackend.get_latest_snapshot`: primary if
available and holding a snapshot, else fallback. -/
def HybridStorageBackend.get_latest_snapshot {σp σf α : Type}
    (P : SnapBackend σp α) (F : SnapBackend σf α)
    (st : HybridState σp σf α) : Option α :=
  if P.is_available st.primary then
    match P.get_latest_snapshot st.primary with
    | some s => some s
    | none => F.get_latest_snapshot st.fallback
  else F.get_latest_snapshot st.fallback

/-- Model of `HybridStorageBackend.get_all_snapshots`: primary if
available and non-empty, else fallback. -/
def HybridStorageBackend.get_all_snapshots {σp σf α : Type}
    (P : SnapBackend σp α) (F : SnapBackend σf α)
    (st : HybridState σp σf α) : List α :=
  if P.is_available st.primary then
    let snapshots := P.get_all_snapshots st.primary
    if snapshots.isEmpty then F.get_all_snapshots st.fallback else snapshots
  else F.get_all_snapshots st.fallback

/-- The record returned by `HybridStorageBackend.get_sync_status`. -/
structure SyncStatus where
  primary_available : Bool
  fallback_available : Bool
  pending_syncs : Nat
  fully_synced : Bool
deriving DecidableEq

/-- Model of `HybridStorageBackend.get_sync_status`. -/
def HybridStorageBackend.get_sync_status {σp σf α : Type}
    (P : SnapBackend σp α) (F : SnapBackend σf α)
    (st : HybridState σp σf α) : SyncStatus :=
  ⟨P.is_available st.primary, F.is_available st.fallback,
   st.pending_sync.length,
   (st.pending_sync.length == 0) && P.is_available st.primary⟩

/-- The local file backend packaged behind the `SnapBackend` interface. -/
def localSnapBackend (α : Type) : SnapBackend (LocalState α) α :=
  ⟨LocalFileBackend.is_available, LocalFileBackend.save_snapshot,
   LocalFileBackend.get_latest_snapshot, LocalFileBackend.get_all_snapshots⟩

/-- A primary-backend stub that is reachable but whose every save
fails (the scenario stub of the spec). -/
def failingPrimary (α : Type) : SnapBackend Unit α :=
  ⟨fun _ => true, fun st _ => (false, st), fun _ => none, fun _ => []⟩

/-! ## Ledger persistence (`agent/transaction_storage.py`) -/

/-- The `metadata` dict of the persisted ledger; `none` models an absent
key (e.g. the empty metadata returned when no file exists yet). -/
structure TxnMeta where
  sell_count : Option Nat
  buy_count : Option Nat
  sell_hash : Option String
  buy_hash : Option String
  source_sheet : Option String
  currency_rates : Option (List (String × PyNum))
deriving DecidableEq

def TxnMeta.emptyMeta : TxnMeta := ⟨none, none, none, none, none, none⟩

/-- The whole persisted ledger object; `last_updated` is `none` in the
empty structure `get_transactions` fabricates when no file exists. -/
structure TxnData where
  last_updated : Option String
  sell_transactions : List Txn
  buy_transactions : List Txn
  metadata : TxnMeta
deriving DecidableEq

/-- The ledger-facing interface of a storage backend, over an explicit
backend state `σ`. -/
structure TxnBackend (σ : Type) where
  get_transactions : σ → Option TxnData
  save_transactions : σ → TxnData → Bool × σ

/-- Model of module-level `get_transactions`: a missing file yields the
empty structure. (In this typed model the structure validation that the
Python code runs always passes.) -/
def get_transactions {σ : Type} (B : TxnBackend σ) (st : σ) : TxnData :=
  match B.get_transactions st with
  | none => ⟨none, [], [], TxnMeta.emptyMeta⟩
  | some d => d

/-- The record returned by `transactions_have_changed`. -/
structure ChangeStatus where
  sell_changed : Bool
  buy_changed : Bool
  any_changed : Bool
deriving DecidableEq

/-- Model of `transactions_have_changed`: compare fresh hashes with the
stored metadata hashes (absent stored hash reads as `""`). -/
def transactions_have_changed {σ : Type} (B : TxnBackend σ) (st : σ)
    (sell_transactions buy_transactions : List Txn) : ChangeStatus :=
  let stored := get_transactions B st
  let current_sell_hash := compute_transaction_hash sell_transactions
  let current_buy_hash := compute_transaction_hash buy_transactions
  let stored_sell_hash := stored.metadata.sell_hash.getD ""
  let stored_buy_hash := stored.metadata.buy_hash.getD ""
  let sell_changed := !(current_sell_hash == stored_sell_hash)
  let buy_changed := !(current_buy_hash == stored_buy_hash)
  ⟨sell_changed, buy_changed, sell_changed || buy_changed⟩

/-- The whole-object ledger replacement `save_transactions` builds when
it decides to persist: fresh `last_updated` stamp (`now`), the new
transaction lists, and recomputed count and hash metadata. -/
def builtTxnData (sell_transactions buy_transactions : List Txn)
    (currency_rates : List (String × PyNum)) (now : String) : TxnData :=
  ⟨some now, sell_transactions, buy_transactions,
   ⟨some sell_transactions.length, some buy_transactions.length,
    some (compute_transaction_hash sell_transactions),
    some (compute_transaction_hash buy_transactions),
    some "Transactions", some currency_rates⟩⟩

/-- Model of module-level `save_transactions`. The third component
lists the whole-object writes handed to the backend, in order; an
unchanged ledger performs none and returns `false`. -/
def save_transactions {σ : Type} (B : TxnBackend σ) (st : σ)
    (sell_transactions buy_transactions : List Txn)
    (currency_rates : List (String × PyNum)) (now : String) :
    Bool × σ × List TxnData :=
  let change_status := transactions_have_changed B st sell_transactions buy_transactions
  if change_status.any_changed = false then (false, st, [])
  else
    let transaction_data :=
      builtTxnData sell_transactions buy_transactions currency_rates now
    let r := B.save_transactions st transaction_data
    (r.1, r.2, [transaction_data])

/-! ## Facade deletion (`agent/storage.py::delete_snapshot`) -/

/-- The backend operations the facade `delete_snapshot` can reach, over
an explicit backend state `σ`. -/
structure FacadeBackend (σ α : Type) where
  get_all_snapshots : σ → List α
  delete_snapshot : σ → Int → Bool × σ

/-- The result dict of the facade `delete_snapshot`; absent keys are
`none`. -/
structure FacadeDeleteResult (α : Type) where
  success : Bool
  error : Option String
  warning : Option String
  deleted_snapshot : Option (Int × α)
  remaining_count : Option Nat
deriving DecidableEq

/-- Model of the facade `delete_snapshot(index, confirm)` with 1-based
`index`. The final `Nat` counts the backend calls performed (reads and
writes alike); without `confirm` the function returns before any. -/
def Facade.delete_snapshot {σ α : Type} (B : FacadeBackend σ α) (st : σ)
    (index : Int) (confirm : Bool) : FacadeDeleteResult α × σ × Nat :=
  if confirm = false then
    (⟨false, some "Deletion cancelled. Set confirm=True to proceed.",
      some "This operation is permanent and will delete the snapshot from both GCP and local storage.",
      none, none⟩, st, 0)
  else if index < 1 then
    (⟨false, some "Invalid index: index must be at least 1.", none, none, none⟩, st, 0)
  else
    let all_snapshots := B.get_all_snapshots st
    if all_snapshots.isEmpty then
      (⟨false, some "No snapshots found in history.", none, none, none⟩, st, 1)
    else
      let zero_based_index := index - 1
      if (all_snapshots.length : Int) ≤ zero_based_index then
        (⟨false, some "Index out of range.", none, none, none⟩, st, 1)
      else
        let r := B.delete_snapshot st zero_based_index
        if r.1 then
          (⟨true, none, none,
            (all_snapshots.get? zero_based_index.toNat).map (fun a => (index, a)),
            some (all_snapshots.length - 1)⟩, r.2, 2)
        else
          (⟨false, some "Deletion failed. Check logs for details.", none, none, none⟩, r.2, 2)

/-! ## Concrete sample values used in witnesses and counterexamples -/

/-- A sample transaction. -/
def txA : Txn := ⟨"2024", "A", ⟨1, 1⟩, "E", none, some ⟨1, 1⟩, ⟨1, 1⟩, []⟩

/-- Same `(date, asset_name)` sort key as `txA`, different quantity. -/
def txB : Txn := ⟨"2024", "A", ⟨2, 1⟩, "E", none, some ⟨1, 1⟩, ⟨1, 1⟩, []⟩

/-- `txA` with the quantity changed by 10^-5, below rounding precision. -/
def txC : Txn := ⟨"2024", "A", ⟨100001, 100000⟩, "E", none, some ⟨1, 1⟩, ⟨1, 1⟩, []⟩

/-- `txA` with only derived fields changed. -/
def txD : Txn := ⟨"2024", "A", ⟨1, 1⟩, "E", none, some ⟨1, 1⟩, ⟨55, 1⟩, [("total_gbp", "44")]⟩

/-- A transaction with a sort key distinct from `txA`. -/
def txE : Txn := ⟨"2024", "B", ⟨3, 1⟩, "E", none, some ⟨2, 1⟩, ⟨6, 1⟩, []⟩

/-- An in-memory ledger backend holding at most one ledger object. -/
def memTxnBackend : TxnBackend (Option TxnData) :=
  ⟨fun st => st, fun _ d => (true, some d)⟩

/-! ## Theorems -/

theorem eraseIdx_eq_take_append_drop {α : Type} :
    ∀ (l : List α) (k : Nat), l.eraseIdx k = l.take k ++ l.drop (k+1)
  | [], _ => by simp
  | _ :: _, 0 => by simp
  | x :: xs, k+1 => by
      simpa [List.eraseIdx] using eraseIdx_eq_take_append_drop xs k

/-- Claim C1: when the canonical history file holds unparsable JSON,
`save_snapshot` returns `false` and leaves the entire on-disk state (the
canonical file byte-for-byte, the `.bak` backup and the timestamped
backups) exactly as it was: the parse failure aborts before any backup,
append or write step. -/
theorem C1_save_snapshot_corrupt_fails_untouched {α : Type}
    (st : LocalState α) (s : α) (raw : Nat)
    (hc : st.historyFile = some (FileContent.corrupt raw)) :
    LocalFileBackend.save_snapshot st s = (false, st) := by
  unfold LocalFileBackend.save_snapshot
  rw [hc]

/-- Concrete instance of C1 at a one-file corrupt state. -/
theorem C1_witness :
    (⟨some (FileContent.corrupt 7), none, []⟩ : LocalState Nat).historyFile
        = some (FileContent.corrupt 7) ∧
    LocalFileBackend.save_snapshot
        (⟨some (FileContent.corrupt 7), none, []⟩ : LocalState Nat) 42
      = (false, ⟨some (FileContent.corrupt 7), none, []⟩) :=
  ⟨rfl, C1_save_snapshot_corrupt_fails_untouched _ 42 7 rfl⟩

theorem saveMany_from_snaps {α : Type} (ss : List α) :
    ∀ (st : LocalState α) (l : List α),
      st.historyFile = some (FileContent.snaps l) →
      (LocalFileBackend.saveMany st ss).1 = List.replicate ss.length true ∧
      (LocalFileBackend.saveMany st ss).2.historyFile
          = some (FileContent.snaps (l ++ ss)) := by
  induction ss with
  | nil => intro st l h; simp [LocalFileBackend.saveMany, h]
  | cons s rest ih =>
    intro st l h
    have hsave : LocalFileBackend.save_snapshot st s =
        (true, { st with
                 backupFile := some (FileContent.snaps l),
                 historyFile := some (FileContent.snaps (l ++ [s])) }) := by
      unfold LocalFileBackend.save_snapshot; rw [h]
    have ih' := ih ({ st with
                      backupFile := some (FileContent.snaps l),
                      historyFile := some (FileContent.snaps (l ++ [s])) }) (l ++ [s]) rfl
    refine ⟨?_, ?_⟩ <;>
      simp [LocalFileBackend.saveMany, hsave, ih'.1, ih'.2, List.append_assoc,
            List.replicate_succ]

/-- Claim C4: starting from an empty local backend, every one of the N
`save_snapshot` calls returns `true`, and `get_all_snapshots` then
returns exactly the N saved snapshots in call order. -/
theorem C4_saveN_from_empty_in_order {α : Type} (ss : List α) :
    (LocalFileBackend.saveMany (LocalFileBackend.emptyState α) ss).1
        = List.replicate ss.length true ∧
    LocalFileBackend.get_all_snapshots
        (LocalFileBackend.saveMany (LocalFileBackend.emptyState α) ss).2 = ss ∧
    (LocalFileBackend.get_all_snapshots
        (LocalFileBackend.saveMany (LocalFileBackend.emptyState α) ss).2).length
        = ss.length := by
  cases ss with
  | nil => exact ⟨rfl, rfl, rfl⟩
  | cons s rest =>
    have h2 := saveMany_from_snaps rest
      (⟨some (FileContent.snaps [s]), none, []⟩ : LocalState α) [s] rfl
    have hmany : LocalFileBackend.saveMany (LocalFileBackend.emptyState α) (s :: rest) =
        (true :: (LocalFileBackend.saveMany
            (⟨some (FileContent.snaps [s]), none, []⟩ : LocalState α) rest).1,
         (LocalFileBackend.saveMany
            (⟨some (FileContent.snaps [s]), none, []⟩ : LocalState α) rest).2) := rfl
    have hget : LocalFileBackend.get_all_snapshots
        (LocalFileBackend.saveMany
          (⟨some (FileContent.snaps [s]), none, []⟩ : LocalState α) rest).2
        = [s] ++ rest := by
      unfold LocalFileBackend.get_all_snapshots; rw [h2.2]
    refine ⟨?_, ?_, ?_⟩ <;> simp [hmany, h2.1, hget, List.replicate]

/-- Claim C5: with a parsed history of length `len`, `delete_snapshot`
returns `false` and mutates nothing at indices `-1` and `len`; at any
valid index `k` it succeeds, removes exactly the element at `k`
(preserving the order of the rest) and shrinks the history by one. -/
theorem C5_delete_snapshot_bounds_and_removal {α : Type}
    (st : LocalState α) (l : List α)
    (hh : st.historyFile = some (FileContent.snaps l)) :
    LocalFileBackend.delete_snapshot st (-1) = (false, st) ∧
    LocalFileBackend.delete_snapshot st (l.length : Int) = (false, st) ∧
    ∀ k : Nat, k < l.length →
      (LocalFileBackend.delete_snapshot st (k : Int)).1 = true ∧
      LocalFileBackend.get_all_snapshots
          (LocalFileBackend.delete_snapshot st (k : Int)).2
          = l.take k ++ l.drop (k+1) ∧
      (LocalFileBackend.get_all_snapshots
          (LocalFileBackend.delete_snapshot st (k : Int)).2).length
          = l.length - 1 := by
  refine ⟨?_, ?_, ?_⟩
  · unfold LocalFileBackend.delete_snapshot
    rw [hh]; simp
  · unfold LocalFileBackend.delete_snapshot
    rw [hh]; simp
  · intro k hk
    have hcond : ¬((k : Int) < 0 ∨ (l.length : Int) ≤ (k : Int)) := by
      push_neg
      exact ⟨Int.natCast_nonneg k, by exact_mod_cast hk⟩
    have hdel : LocalFileBackend.delete_snapshot st (k : Int) =
        (true, { st with
                 tsBackups := st.tsBackups ++ [FileContent.snaps l],
                 historyFile := some (FileContent.snaps (l.eraseIdx ((k : Int)).toNat)) }) := by
      unfold LocalFileBackend.delete_snapshot
      rw [hh]
      simp [hcond, hk]
    have htn : ((k : Int)).toNat = k := Int.toNat_natCast k
    refine ⟨by simp [hdel], ?_, ?_⟩
    · rw [hdel]
      show l.eraseIdx ((k : Int)).toNat = l.take k ++ l.drop (k+1)
      rw [htn, eraseIdx_eq_take_append_drop]
    · rw [hdel]
      show (l.eraseIdx ((k : Int)).toNat).length = l.length - 1
      rw [htn, List.length_eraseIdx]
      simp [hk]

/-- Concrete instance of C5 on a three-snapshot history. -/
theorem C5_witness :
    LocalFileBackend.delete_snapshot
        (⟨some (FileContent.snaps [10, 20, 30]), none, []⟩ : LocalState Nat) (-1)
      = (false, ⟨some (FileContent.snaps [10, 20, 30]), none, []⟩) ∧
    (LocalFileBackend.delete_snapshot
        (⟨some (FileContent.snaps [10, 20, 30]), none, []⟩ : LocalState Nat)
        ((1 : Nat) : Int)).1 = true ∧
    LocalFileBackend.get_all_snapshots
        (LocalFileBackend.delete_snapshot
          (⟨some (FileContent.snaps [10, 20, 30]), none, []⟩ : LocalState Nat)
          ((1 : Nat) : Int)).2 = [10, 30] :=
  have h := C5_delete_snapshot_bounds_and_removal
    (⟨some (FileContent.snaps [10, 20, 30]), none, []⟩ : LocalState Nat) [10, 20, 30] rfl
  ⟨h.1, (h.2.2 1 (by decide)).1, by
    have h2 := (h.2.2 1 (by decide)).2.1
    simpa using h2⟩

/-- Claim C7: hybrid reads return the primary result exactly when the
primary is available and its result is non-empty; an available but empty
primary falls through to the fallback, as does an unavailable one. -/
theorem C7_hybrid_reads_prefer_nonempty_primary {σp σf α : Type}
    (P : SnapBackend σp α) (F : SnapBackend σf α) (st : HybridState σp σf α) :
    HybridStorageBackend.get_all_snapshots P F st =
      (if P.is_available st.primary = true ∧
          (P.get_all_snapshots st.primary).isEmpty = false
       then P.get_all_snapshots st.primary
       else F.get_all_snapshots st.fallback) ∧
    HybridStorageBackend.get_latest_snapshot P F st =
      (if P.is_available st.primary = true ∧
          (P.get_latest_snapshot st.primary).isSome = true
       then P.get_latest_snapshot st.primary
       else F.get_latest_snapshot st.fallback) := by
  constructor
  · unfold HybridStorageBackend.get_all_snapshots
    by_cases ha : P.is_available st.primary = true
    · by_cases he : (P.get_all_snapshots st.primary).isEmpty = true
      · simp [ha, he]
      · simp only [Bool.not_eq_true] at he
        simp [ha, he]
    · simp [ha]
  · unfold HybridStorageBackend.get_latest_snapshot
    by_cases ha : P.is_available st.primary = true
    · cases hl : P.get_latest_snapshot st.primary with
      | none => simp [ha, hl]
      | some v => simp [ha, hl]
    · simp [ha]

/-- Claim C10: the facade `delete_snapshot` without `confirm=True`
reports failure with an explanatory error, makes zero backend calls and
leaves the backend state untouched, for every index and every backend. -/
theorem C10_facade_delete_requires_confirm {σ α : Type}
    (B : FacadeBackend σ α) (st : σ) (index : Int) :
    (Facade.delete_snapshot B st index false).1.success = false ∧
    (Facade.delete_snapshot B st index false).1.error
        = some "Deletion cancelled. Set confirm=True to proceed." ∧
    (Facade.delete_snapshot B st index false).2.1 = st ∧
    (Facade.delete_snapshot B st index false).2.2 = 0 :=
  ⟨rfl, rfl, rfl, rfl⟩

/-- Claim C6: `save_transactions` persists (as a whole-object replace
with recomputed counts, hashes and a fresh stamp) exactly when the fresh
sell or buy hash differs from the stored one; an unchanged ledger
returns `false` with zero backend writes. -/
theorem C6_save_transactions_iff_hash_changed {σ : Type} (B : TxnBackend σ) (st : σ)
    (sells buys : List Txn) (rates : List (String × PyNum)) (now : String) :
    ((transactions_have_changed B st sells buys).any_changed =
      (!(compute_transaction_hash sells ==
          (get_transactions B st).metadata.sell_hash.getD "") ||
       !(compute_transaction_hash buys ==
          (get_transactions B st).metadata.buy_hash.getD ""))) ∧
    ((transactions_have_changed B st sells buys).any_changed = false →
      save_transactions B st sells buys rates now = (false, st, [])) ∧
    ((transactions_have_changed B st sells buys).any_changed = true →
      save_transactions B st sells buys rates now =
        ((B.save_transactions st (builtTxnData sells buys rates now)).1,
         (B.save_transactions st (builtTxnData sells buys rates now)).2,
         [builtTxnData sells buys rates now])) := by
  refine ⟨rfl, ?_, ?_⟩ <;> intro h <;> simp [save_transactions, h]

/-- Concrete instance of C6: an empty backend has no stored hashes, so
even the empty ledger counts as changed and one write happens. -/
theorem C6_witness :
    (transactions_have_changed memTxnBackend none [] []).any_changed = true ∧
    save_transactions memTxnBackend none [] [] [] "2025-01-01T00:00:00+00:00" =
      (true, some (builtTxnData [] [] [] "2025-01-01T00:00:00+00:00"),
       [builtTxnData [] [] [] "2025-01-01T00:00:00+00:00"]) :=
  ⟨by decide,
   (C6_save_transactions_iff_hash_changed memTxnBackend none [] [] []
      "2025-01-01T00:00:00+00:00").2.2 (by decide)⟩

/-- Claim C2: the hybrid save returns `true` exactly when the primary
save (after the queue drain) or the fallback save succeeded; whenever
the primary was unavailable or failed the snapshot lands at the end of
the pending-sync queue; and in the concrete scenario of an
always-failing primary over the real local fallback started empty, the
call returns `true`, the fallback contains the snapshot, and
`get_sync_status` reports one pending sync. -/
theorem C2_hybrid_save_result_queue_and_scenario {σp σf α : Type}
    (P : SnapBackend σp α) (F : SnapBackend σf α)
    (st : HybridState σp σf α) (s : α) :
    ((HybridStorageBackend.save_snapshot P F st s).1 =
      ((P.is_available
          (HybridStorageBackend.retry_pending_syncs P st.primary st.pending_sync).1 &&
        (P.save_snapshot
          (HybridStorageBackend.retry_pending_syncs P st.primary st.pending_sync).1 s).1) ||
       (F.save_snapshot st.fallback s).1)) ∧
    ((P.is_available
        (HybridStorageBackend.retry_pending_syncs P st.primary st.pending_sync).1 = false ∨
      (P.save_snapshot
        (HybridStorageBackend.retry_pending_syncs P st.primary st.pending_sync).1 s).1 = false) →
      (HybridStorageBackend.save_snapshot P F st s).2.pending_sync =
        (HybridStorageBackend.retry_pending_syncs P st.primary st.pending_sync).2 ++ [s]) ∧
    ((HybridStorageBackend.save_snapshot (failingPrimary α) (localSnapBackend α)
        ⟨(), LocalFileBackend.emptyState α, []⟩ s).1 = true ∧
     LocalFileBackend.get_all_snapshots
        (HybridStorageBackend.save_snapshot (failingPrimary α) (localSnapBackend α)
          ⟨(), LocalFileBackend.emptyState α, []⟩ s).2.fallback = [s] ∧
     (HybridStorageBackend.get_sync_status (failingPrimary α) (localSnapBackend α)
        (HybridStorageBackend.save_snapshot (failingPrimary α) (localSnapBackend α)
          ⟨(), LocalFileBackend.emptyState α, []⟩ s).2).pending_syncs = 1) := by
  refine ⟨?_, ?_, rfl, rfl, rfl⟩
  · unfold HybridStorageBackend.save_snapshot
    by_cases ha : P.is_available
        (HybridStorageBackend.retry_pending_syncs P st.primary st.pending_sync).1 = true
    · by_cases hs : (P.save_snapshot
          (HybridStorageBackend.retry_pending_syncs P st.primary st.pending_sync).1 s).1 = true
      · simp [ha, hs]
      · simp [ha, Bool.not_eq_true] at hs ⊢
        simp [ha, hs]
    · simp [Bool.not_eq_true] at ha
      simp [ha]
  · intro h
    unfold HybridStorageBackend.save_snapshot
    by_cases ha : P.is_available
        (HybridStorageBackend.retry_pending_syncs P st.primary st.pending_sync).1 = true
    · rcases h with h | h
      · rw [ha] at h; cases h
      · simp [ha, h]
    · simp [Bool.not_eq_true] at ha
      simp [ha]

/-- Concrete instance of C2 with the failing primary stub: the failed
primary save queues the snapshot. -/
theorem C2_witness :
    (((failingPrimary Nat).is_available
        (HybridStorageBackend.retry_pending_syncs (failingPrimary Nat) () []).1 = false) ∨
     ((failingPrimary Nat).save_snapshot
        (HybridStorageBackend.retry_pending_syncs (failingPrimary Nat) () []).1 5).1 = false) ∧
    (HybridStorageBackend.save_snapshot (failingPrimary Nat) (localSnapBackend Nat)
        ⟨(), LocalFileBackend.emptyState Nat, []⟩ 5).2.pending_sync =
      (HybridStorageBackend.retry_pending_syncs (failingPrimary Nat) () []).2 ++ [5] :=
  ⟨Or.inr rfl,
   (C2_hybrid_save_result_queue_and_scenario (failingPrimary Nat) (localSnapBackend Nat)
      ⟨(), LocalFileBackend.emptyState Nat, []⟩ 5).2.1 (Or.inr rfl)⟩

theorem chars_eq_of_not_lt : ∀ (a b : List Char),
    charsLt a b = false → charsLt b a = false → a = b
  | [], [], _, _ => rfl
  | [], _ :: _, h1, _ => by simp [charsLt] at h1
  | _ :: _, [], _, h2 => by simp [charsLt] at h2
  | x :: xs, y :: ys, h1, h2 => by
      simp only [charsLt] at h1 h2
      by_cases hxy : x.toNat < y.toNat
      · rw [if_pos hxy] at h1; cases h1
      · by_cases hyx : y.toNat < x.toNat
        · rw [if_pos hyx] at h2; cases h2
        · rw [if_neg hxy, if_neg hyx] at h1
          rw [if_neg hyx, if_neg hxy] at h2
          have hx : x = y :=
            Char.ext (UInt32.ext (Nat.le_antisymm (Nat.not_lt.mp hyx) (Nat.not_lt.mp hxy)))
          rw [hx, chars_eq_of_not_lt xs ys h1 h2]

theorem charsLt_irrefl : ∀ (a : List Char), charsLt a a = false
  | [] => rfl
  | x :: xs => by simp [charsLt, charsLt_irrefl xs]

theorem charsLt_asymm : ∀ (a b : List Char),
    charsLt a b = true → charsLt b a = false
  | [], [], h => by simp [charsLt] at h
  | [], _ :: _, _ => rfl
  | _ :: _, [], h => by simp [charsLt] at h
  | x :: xs, y :: ys, h => by
      simp only [charsLt] at h ⊢
      by_cases hxy : x.toNat < y.toNat
      · have hyx : ¬ y.toNat < x.toNat := Nat.lt_asymm hxy
        simp [hxy, hyx]
      · by_cases hyx : y.toNat < x.toNat
        · rw [if_neg hxy, if_pos hyx] at h; cases h
        · rw [if_neg hxy, if_neg hyx] at h
          simp [hxy, hyx, charsLt_asymm xs ys h]

theorem charsLt_trans : ∀ (a b c : List Char),
    charsLt a b = true → charsLt b c = true → charsLt a c = true
  | a, [], _, h1, _ => by
      exfalso
      cases a <;> simp [charsLt] at h1
  | _, _ :: _, [], _, h2 => by simp [charsLt] at h2
  | [], _ :: _, _ :: _, _, _ => rfl
  | x :: xs, y :: ys, z :: zs, h1, h2 => by
      simp only [charsLt] at h1 h2 ⊢
      by_cases hxy : x.toNat < y.toNat
      · by_cases hyz : y.toNat < z.toNat
        · simp [Nat.lt_trans hxy hyz]
        · by_cases hzy : z.toNat < y.toNat
          · rw [if_neg hyz, if_pos hzy] at h2; cases h2
          · have : y.toNat = z.toNat :=
              Nat.le_antisymm (Nat.not_lt.mp hzy) (Nat.not_lt.mp hyz)
            simp [this ▸ hxy]
      · by_cases hyx : y.toNat < x.toNat
        · rw [if_neg hxy, if_pos hyx] at h1; cases h1
        · have hxyeq : x.toNat = y.toNat :=
            Nat.le_antisymm (Nat.not_lt.mp hyx) (Nat.not_lt.mp hxy)
          rw [if_neg hxy, if_neg hyx] at h1
          by_cases hyz : y.toNat < z.toNat
          · simp [hxyeq ▸ hyz]
          · by_cases hzy : z.toNat < y.toNat
            · rw [if_neg hyz, if_pos hzy] at h2; cases h2
            · rw [if_neg hyz, if_neg hzy] at h2
              have hxz : ¬ x.toNat < z.toNat := by
                rw [hxyeq]; exact hyz
              have hzx : ¬ z.toNat < x.toNat := by
                rw [hxyeq]; exact hzy
              simp [hxz, hzx, charsLt_trans xs ys zs h1 h2]

theorem string_eq_of_not_lt {s t : String}
    (h1 : pyStrLt s t = false) (h2 : pyStrLt t s = false) : s = t := by
  cases s with
  | mk d1 =>
    cases t with
    | mk d2 => exact congrArg String.mk (chars_eq_of_not_lt d1 d2 h1 h2)

theorem pyStrLt_total_of_ne {s t : String} (h : s ≠ t) :
    pyStrLt s t = true ∨ pyStrLt t s = true := by
  by_cases h1 : pyStrLt s t = true
  · exact Or.inl h1
  · by_cases h2 : pyStrLt t s = true
    · exact Or.inr h2
    · exact absurd (string_eq_of_not_lt (Bool.not_eq_true _ ▸ h1 : pyStrLt s t = false)
        (Bool.not_eq_true _ ▸ h2 : pyStrLt t s = false)) h

theorem pyStrLt_irrefl (s : String) : pyStrLt s s = false := charsLt_irrefl s.data

theorem pyStrLt_asymm {s t : String} (h : pyStrLt s t = true) : pyStrLt t s = false :=
  charsLt_asymm s.data t.data h

theorem pyStrLt_trans {s t u : String}
    (h1 : pyStrLt s t = true) (h2 : pyStrLt t u = true) : pyStrLt s u = true :=
  charsLt_trans s.data t.data u.data h1 h2

theorem keyLt_asymm (a b : NormTxn) (h : keyLt a b = true) : keyLt b a = false := by
  unfold keyLt at h ⊢
  rcases Bool.or_eq_true_iff.mp h with hd | hda
  · have h1 : pyStrLt b.date a.date = false := pyStrLt_asymm hd
    have h2 : (b.date == a.date) = false := by
      rw [beq_eq_false_iff_ne]
      intro he
      rw [he] at hd
      rw [pyStrLt_irrefl] at hd
      cases hd
    simp [h1, h2]
  · rcases Bool.and_eq_true_iff.mp hda with ⟨hdeq, hal⟩
    have hdeq' : a.date = b.date := by simpa using hdeq
    have h1 : pyStrLt b.date a.date = false := by
      rw [← hdeq']; exact pyStrLt_irrefl _
    have h2 : pyStrLt b.asset_name a.asset_name = false := pyStrLt_asymm hal
    simp [h1, h2]

theorem keyLt_trans (a b c : NormTxn)
    (h1 : keyLt a b = true) (h2 : keyLt b c = true) : keyLt a c = true := by
  unfold keyLt at h1 h2 ⊢
  rcases Bool.or_eq_true_iff.mp h1 with hd1 | hda1
  · rcases Bool.or_eq_true_iff.mp h2 with hd2 | hda2
    · exact Bool.or_eq_true_iff.mpr (Or.inl (charsLt_trans _ _ _ hd1 hd2))
    · rcases Bool.and_eq_true_iff.mp hda2 with ⟨hdeq, _⟩
      have : b.date = c.date := by simpa using hdeq
      exact Bool.or_eq_true_iff.mpr (Or.inl (this ▸ hd1))
  · rcases Bool.and_eq_true_iff.mp hda1 with ⟨hdeq1, ha1⟩
    have he1 : a.date = b.date := by simpa using hdeq1
    rcases Bool.or_eq_true_iff.mp h2 with hd2 | hda2
    · exact Bool.or_eq_true_iff.mpr (Or.inl (by rw [show pyStrLt a.date c.date = charsLt a.date.data c.date.data from rfl, he1]; exact hd2))
    · rcases Bool.and_eq_true_iff.mp hda2 with ⟨hdeq2, ha2⟩
      have he2 : b.date = c.date := by simpa using hdeq2
      refine Bool.or_eq_true_iff.mpr (Or.inr (Bool.and_eq_true_iff.mpr ⟨?_, ?_⟩))
      · simp [he1, he2]
      · exact charsLt_trans _ _ _ ha1 ha2

theorem keyLt_total_of_ne (a b : NormTxn)
    (h : (a.date, a.asset_name) ≠ (b.date, b.asset_name)) :
    keyLt a b = true ∨ keyLt b a = true := by
  unfold keyLt
  by_cases hd : a.date = b.date
  · have ha : a.asset_name ≠ b.asset_name := by
      intro he; exact h (by rw [hd, he])
    rcases pyStrLt_total_of_ne ha with h1 | h1
    · exact Or.inl (Bool.or_eq_true_iff.mpr (Or.inr
        (Bool.and_eq_true_iff.mpr ⟨by simp [hd], h1⟩)))
    · exact Or.inr (Bool.or_eq_true_iff.mpr (Or.inr
        (Bool.and_eq_true_iff.mpr ⟨by simp [hd], h1⟩)))
  · rcases pyStrLt_total_of_ne hd with h1 | h1
    · exact Or.inl (Bool.or_eq_true_iff.mpr (Or.inl h1))
    · exact Or.inr (Bool.or_eq_true_iff.mpr (Or.inl h1))

theorem keyLt_negtrans (a b c : NormTxn)
    (hab : keyLt a b = false) (hbc : keyLt b c = false) : keyLt a c = false := by
  by_cases hk : (a.date, a.asset_name) = (b.date, b.asset_name)
  · have hd : a.date = b.date := congrArg Prod.fst hk
    have ha : a.asset_name = b.asset_name := congrArg Prod.snd hk
    have : keyLt a c = keyLt b c := by unfold keyLt; rw [hd, ha]
    rw [this]; exact hbc
  · rcases keyLt_total_of_ne a b hk with h1 | h1
    · rw [h1] at hab; cases hab
    · by_cases hac : keyLt a c = true
      · have := keyLt_trans b a c h1 hac
        rw [this] at hbc; cases hbc
      · exact Bool.not_eq_true _ ▸ hac

theorem insertByKey_perm (x : NormTxn) :
    ∀ (l : List NormTxn), (insertByKey x l).Perm (x :: l)
  | [] => List.Perm.refl _
  | y :: ys => by
      simp only [insertByKey]
      by_cases h : keyLt y x = true
      · rw [if_pos h]
        exact ((insertByKey_perm x ys).cons y).trans (List.Perm.swap x y ys)
      · rw [if_neg h]

theorem sortByKey_perm : ∀ (l : List NormTxn), (sortByKey l).Perm l
  | [] => List.Perm.refl _
  | x :: xs => by
      simp only [sortByKey]
      exact (insertByKey_perm x (sortByKey xs)).trans ((sortByKey_perm xs).cons x)

theorem sorted_insertByKey (x : NormTxn) :
    ∀ (l : List NormTxn), List.Sorted (fun a b => keyLt b a = false) l →
      List.Sorted (fun a b => keyLt b a = false) (insertByKey x l)
  | [], _ => List.sorted_singleton x
  | y :: ys, hs => by
      rcases List.sorted_cons.mp hs with ⟨hy, hys⟩
      simp only [insertByKey]
      by_cases h : keyLt y x = true
      · rw [if_pos h]
        refine List.sorted_cons.mpr ⟨?_, sorted_insertByKey x ys hys⟩
        intro z hz
        rcases List.mem_cons.mp ((insertByKey_perm x ys).mem_iff.mp hz) with rfl | hz
        · exact keyLt_asymm y z h
        · exact hy z hz
      · rw [if_neg h]
        have hyx : keyLt y x = false := Bool.not_eq_true _ ▸ h
        refine List.sorted_cons.mpr ⟨?_, hs⟩
        intro z hz
        rcases List.mem_cons.mp hz with rfl | hz
        · exact hyx
        · exact keyLt_negtrans z y x (hy z hz) hyx

theorem sortByKey_sorted : ∀ (l : List NormTxn),
    List.Sorted (fun a b => keyLt b a = false) (sortByKey l)
  | [] => List.sorted_nil
  | x :: xs => sorted_insertByKey x (sortByKey xs) (sortByKey_sorted xs)

/-- Permutations with pairwise-distinct `(date, asset_name)` sort keys
sort identically: the stable sort is then determined by the key order. -/
theorem sortByKey_eq_of_perm (l₁ l₂ : List NormTxn)
    (hperm : l₁.Perm l₂)
    (hnd : (l₁.map (fun n => (n.date, n.asset_name))).Nodup) :
    sortByKey l₁ = sortByKey l₂ := by
  have p1 := sortByKey_perm l₁
  have p2 := sortByKey_perm l₂
  have ps : (sortByKey l₁).Perm (sortByKey l₂) := p1.trans (hperm.trans p2.symm)
  have hnd1 : ((sortByKey l₁).map (fun n => (n.date, n.asset_name))).Nodup :=
    ((p1.map (fun n : NormTxn => (n.date, n.asset_name))).nodup_iff).mpr hnd
  have hnd2 : ((sortByKey l₂).map (fun n : NormTxn => (n.date, n.asset_name))).Nodup :=
    ((ps.map (fun n : NormTxn => (n.date, n.asset_name))).nodup_iff).mp hnd1
  have strict : ∀ (m : List NormTxn),
      List.Sorted (fun a b => keyLt b a = false) m →
      (m.map (fun n : NormTxn => (n.date, n.asset_name))).Nodup →
      List.Sorted (fun a b => keyLt a b = true) m := by
    intro m hm hmnd
    have hkne : m.Pairwise (fun a b : NormTxn =>
        (a.date, a.asset_name) ≠ (b.date, b.asset_name)) :=
      List.pairwise_map.mp hmnd
    refine (hm.and hkne).imp ?_
    intro a b hab
    rcases keyLt_total_of_ne a b hab.2 with h | h
    · exact h
    · rw [hab.1] at h; cases h
  haveI : IsAntisymm NormTxn (fun a b => keyLt a b = true) := by
    constructor
    intro a b h1 h2
    rw [keyLt_asymm a b h1] at h2
    cases h2
  exact List.eq_of_perm_of_sorted ps
    (strict (sortByKey l₁) (sortByKey_sorted l₁) hnd1)
    (strict (sortByKey l₂) (sortByKey_sorted l₂) hnd2)

/-- Counterexample to C3 as stated: `txA` and `txB` share the
`(date, asset_name)` sort key but differ in quantity, so the stable sort
preserves their input order and the two serializations (hence hashes)
differ. -/
theorem C3_counterexample :
    ([txB, txA].Perm [txA, txB]) ∧
    compute_transaction_hash [txA, txB] ≠ compute_transaction_hash [txB, txA] :=
  ⟨List.Perm.swap txA txB [], by decide⟩

/-- Claim C3 (amended): for transaction lists whose normalized records
carry pairwise-distinct `(date, asset_name)` sort keys, the ledger hash
is invariant under permutation. -/
theorem C3_hash_perm_invariant_distinct_keys (l₁ l₂ : List Txn)
    (hperm : l₁.Perm l₂)
    (hnd : ((l₁.map normalize_transaction_for_hashing).map
        (fun n => (n.date, n.asset_name))).Nodup) :
    compute_transaction_hash l₁ = compute_transaction_hash l₂ := by
  by_cases hn : l₁ = []
  · subst hn
    have h2 : l₂ = [] := hperm.symm.eq_nil
    subst h2; rfl
  · have hn2 : l₂ ≠ [] := by
      intro h; subst h; exact hn hperm.eq_nil
    have hsort : sortByKey (l₁.map normalize_transaction_for_hashing)
        = sortByKey (l₂.map normalize_transaction_for_hashing) :=
      sortByKey_eq_of_perm _ _ (hperm.map _) hnd
    unfold compute_transaction_hash
    have he1 : l₁.isEmpty = false := by simpa using hn
    have he2 : l₂.isEmpty = false := by simpa using hn2
    rw [he1, he2]
    simp only [Bool.false_eq_true, if_false]
    rw [hsort]

/-- Concrete instance of amended C3: distinct sort keys, swapped order,
equal hashes. -/
theorem C3_witness :
    ([txA, txE].Perm [txE, txA]) ∧
    (([txA, txE].map normalize_transaction_for_hashing).map
        (fun n => (n.date, n.asset_name))).Nodup ∧
    compute_transaction_hash [txA, txE] = compute_transaction_hash [txE, txA] :=
  ⟨List.Perm.swap txE txA [], by decide,
   C3_hash_perm_invariant_distinct_keys [txA, txE] [txE, txA]
     (List.Perm.swap txE txA []) (by decide)⟩

theorem list_set_get_self {α : Type} :
    ∀ (l : List α) (i : Nat) (h : i < l.length), l.set i (l.get ⟨i, h⟩) = l
  | _ :: _, 0, _ => rfl
  | x :: xs, i+1, h => by
      simpa [List.set] using list_set_get_self xs i (Nat.lt_of_succ_lt_succ h)

theorem count_set_of_ne {α : Type} [DecidableEq α] :
    ∀ (l : List α) (i : Nat) (h : i < l.length) (b : α), b ≠ l.get ⟨i, h⟩ →
      (l.set i b).count b = l.count b + 1
  | x :: xs, 0, _, b, hne => by
      have hx : b ≠ x := hne
      simp [List.set, List.count_cons_self, List.count_cons_of_ne hx]
  | x :: xs, i+1, h, b, hne => by
      have ih := count_set_of_ne xs i (Nat.lt_of_succ_lt_succ h) b hne
      by_cases hb : b = x
      · subst hb
        simp [List.set, List.count_cons_self, ih]
      · simp [List.set, List.count_cons_of_ne hb, ih]

/-- Counterexample to C8 as stated: raising the quantity (an identity
field) by 10^-5 does not survive rounding to 4 decimals, so the hash is
unchanged. -/
theorem C8_counterexample :
    txC.quantity ≠ txA.quantity ∧
    compute_transaction_hash [txC] = compute_transaction_hash [txA] := by
  refine ⟨by decide, ?_⟩
  have h : [txC].map normalize_transaction_for_hashing
      = [txA].map normalize_transaction_for_hashing := by decide
  unfold compute_transaction_hash
  rw [h]
  rfl

/-- Claim C8 (amended): replacing one transaction so that its normalized
record changes always changes the canonical sorted normalized content
that is hashed; a replacement that only touches fields outside
normalization (derived fields, or identity-field changes below the
normalization precision) leaves the hash itself unchanged. -/
theorem C8_identity_changes_content_derived_does_not
    (l : List Txn) (i : Nat) (hi : i < l.length) (t' : Txn) :
    (normalize_transaction_for_hashing t'
        ≠ normalize_transaction_for_hashing (l.get ⟨i, hi⟩) →
      sortByKey ((l.set i t').map normalize_transaction_for_hashing)
        ≠ sortByKey (l.map normalize_transaction_for_hashing)) ∧
    (normalize_transaction_for_hashing t'
        = normalize_transaction_for_hashing (l.get ⟨i, hi⟩) →
      compute_transaction_hash (l.set i t') = compute_transaction_hash l) := by
  have hilen : i < (l.map normalize_transaction_for_hashing).length := by simpa using hi
  have hget : (l.map normalize_transaction_for_hashing).get ⟨i, hilen⟩
      = normalize_transaction_for_hashing (l.get ⟨i, hi⟩) := by
    simp
  constructor
  · intro hne hEq
    rw [List.map_set] at hEq
    have hr : normalize_transaction_for_hashing t'
        ≠ (l.map normalize_transaction_for_hashing).get ⟨i, hilen⟩ := by
      rw [hget]; exact hne
    have hperm : ((l.map normalize_transaction_for_hashing).set i
        (normalize_transaction_for_hashing t')).Perm
        (l.map normalize_transaction_for_hashing) := by
      have p1 := sortByKey_perm ((l.map normalize_transaction_for_hashing).set i
        (normalize_transaction_for_hashing t'))
      have p2 := sortByKey_perm (l.map normalize_transaction_for_hashing)
      exact p1.symm.trans (hEq ▸ p2)
    have hc := hperm.count_eq (normalize_transaction_for_hashing t')
    rw [count_set_of_ne _ i hilen _ hr] at hc
    omega
  · intro heq
    have hmap : (l.set i t').map normalize_transaction_for_hashing
        = l.map normalize_transaction_for_hashing := by
      rw [List.map_set, heq, ← hget, list_set_get_self]
    have hlen : (l.set i t').isEmpty = l.isEmpty := by
      cases l with
      | nil => simp
      | cons x xs =>
        cases i with
        | zero => rfl
        | succ j => rfl
    unfold compute_transaction_hash
    rw [hmap, hlen]

/-- Concrete instances of amended C8: a surviving identity change
(asset name) changes the hashed content; a derived-only change leaves
the hash unchanged. -/
theorem C8_witness :
    (normalize_transaction_for_hashing txE
        ≠ normalize_transaction_for_hashing ([txA].get ⟨0, by decide⟩) ∧
     sortByKey (([txA].set 0 txE).map normalize_transaction_for_hashing)
        ≠ sortByKey ([txA].map normalize_transaction_for_hashing)) ∧
    (normalize_transaction_for_hashing txD
        = normalize_transaction_for_hashing ([txA].get ⟨0, by decide⟩) ∧
     compute_transaction_hash ([txA].set 0 txD) = compute_transaction_hash [txA]) :=
  ⟨⟨by decide,
    (C8_identity_changes_content_derived_does_not [txA] 0 (by decide) txE).1 (by decide)⟩,
   ⟨by decide,
    (C8_identity_changes_content_derived_does_not [txA] 0 (by decide) txD).2 (by decide)⟩⟩

/-- Claim C9: the empty transaction list short-circuits to the constant
`sha256:e3b0...b855`, which is the SHA-256 digest of the empty byte
string, and differs from what the general normalize-sort-serialize-hash
path would produce for the serialized empty list `[]`. -/
theorem C9_empty_hash_is_empty_string_digest :
    compute_transaction_hash [] =
      "sha256:e3b0c44298fc1c149afbf4c8996fb92427ae41e4649b934ca495991b7852b855" ∧
    sha256hex (strBytes "") =
      "e3b0c44298fc1c149afbf4c8996fb92427ae41e4649b934ca495991b7852b855" ∧
    ("sha256:" ++ sha256hex (strBytes (serializeNormList (sortByKey
        (([] : List Txn).map normalize_transaction_for_hashing)))))
      ≠ compute_transaction_hash [] :=
  ⟨rfl, by decide, by decide⟩
